import Mathlib

/-!
Shallow embedding of the "Lock-Free Durable Set" repository.

The repository provides a family of durable sorted-set data structures
(`SequentialDurableSet`, `LockDurableSet`, `MRLockDurableSet`,
`LinkFreeDurableSet`, `SOFTDurableSet`) over a simulated persistent arena
(`MemoryManager` / `SOFTMemoryManager`).

Embedding conventions:
* C++ `long` keys become `Int`; `std::uintptr_t` becomes `Nat`;
  C++ `int` counters that are only ever decremented below zero become `Int`.
* `std::vector::at` is bounds-checked in C++ and throws `std::out_of_range`;
  it is embedded as an `Except CppErr` access (`vecAt`, `vecSet`).
  Dereferencing a null pointer is embedded as `CppErr.nullDeref`.
* The item type `T` of the C++ templates is a type parameter; `(T) 0`
  becomes `(0 : T)` via a `Zero T` instance.
* The source field names `durableAddressPrefix` / `durableAddressPostfix`
  are rendered `durableAddrPre` / `durableAddrPost`.
-/

/-- Outcomes of C++ runtime faults that the embedded operations can hit:
`outOfRange` models a thrown `std::out_of_range` from `std::vector::at`,
`nullDeref` models dereferencing a null pointer, and `nonTermination`
models a retry loop that can never exit in a quiescent (single-threaded)
execution. -/
inductive CppErr where
  | outOfRange
  | nullDeref
  | nonTermination
  deriving DecidableEq, Repr

deriving instance DecidableEq for Except

/-- Embedding of `std::vector::at` with a C++ `int` index: out-of-range
(negative, or at least the size) throws. -/
def vecAt {α : Type _} (xs : List α) (i : Int) : Except CppErr α :=
  if h : 0 ≤ i ∧ i.toNat < xs.length then .ok (xs.get ⟨i.toNat, h.2⟩)
  else .error .outOfRange

/-- Embedding of an assignment through `std::vector::at`. -/
def vecSet {α : Type _} (xs : List α) (i : Int) (a : α) : Except CppErr (List α) :=
  if 0 ≤ i ∧ i.toNat < xs.length then .ok (xs.set i.toNat a)
  else .error .outOfRange

/-- Sentinel key of every head node (all variants). -/
def MIN_KEY : Int := -100000

/-- Sentinel key of every tail node (all variants). -/
def MAX_KEY : Int := 100000

namespace MemoryManager

/-- Durable cell of the bit-mask flavor store (`MemoryManager.h`, `MemCell`). -/
structure MemCell (T : Type) where
  key : Int
  item : T
  validBits : Nat
  insertValidFlag : Bool
  deleteValidFlag : Bool
  next : Nat
  deriving DecidableEq, Repr

variable {T : Type}

/-- The `MemCell` default constructor: zeroes every field. -/
def MemCell.blank [Zero T] : MemCell T :=
  { key := 0, item := 0, validBits := 0,
    insertValidFlag := false, deleteValidFlag := false, next := 0 }

/-- `MemCell::COPY`: unconditionally overwrite all six fields (used by `FLUSH`). -/
def MemCell.COPY (_ : MemCell T) (key : Int) (item : T) (validBits : Nat)
    (insertValidFlag deleteValidFlag : Bool) (next : Nat) : MemCell T :=
  { key, item, validBits, insertValidFlag, deleteValidFlag, next }

/-- `MemCell::isValid` exactly as written in `MemoryManager.h` lines 52-58:
the second test is `(bool)((this->next) | 0)`, i.e. it fires whenever
`next` is nonzero (the bitwise-or with `0` is the identity). -/
def MemCell.isValid (c : MemCell T) : Bool :=
  if c.validBits &&& 3 ≠ 3 then false
  else if (c.next ||| 0) ≠ 0 then false
  else true

/-- Liveness of a bit-mask cell as the specification words it (§3): the cell
is live iff `(validBits & 3) == 3` and the tombstone (low) bit of `next` is
clear.  This is the spec-side definition kept for comparison with the
source-side `MemCell.isValid`. -/
def MemCell.isValidSpecLive (c : MemCell T) : Bool :=
  (c.validBits &&& 3 == 3) && (c.next % 2 == 0)

/-- State of the bit-mask flavor durable store (`MemoryManager`). -/
structure State (T : Type) where
  numMemPoolSections : Nat
  memPoolSectionSize : Nat
  memPool : List (List (MemCell T))
  freeListIndex : List Int
  deriving DecidableEq, Repr

/-- The `MemoryManager(numIDs, numOps)` constructor: a `numIDs × numOps`
arena of blank cells, and every per-writer cursor set to `numOps - 1`. -/
def State.construct [Zero T] (numIDs numOps : Nat) : State T :=
  { numMemPoolSections := numIDs
    memPoolSectionSize := numOps
    memPool := List.replicate numIDs (List.replicate numOps MemCell.blank)
    freeListIndex := List.replicate numIDs ((numOps : Int) - 1) }

/-- `MemoryManager::retrieveAddress`: return the writer's current cursor
(`freeListIndex.at(sectionID)`). -/
def State.retrieveAddress (m : State T) (sectionID : Int) : Except CppErr Int :=
  vecAt m.freeListIndex sectionID

/-- `MemoryManager::updateAddress`: post-decrement the writer's cursor. -/
def State.updateAddress (m : State T) (sectionID : Int) : Except CppErr (State T) :=
  match vecAt m.freeListIndex sectionID with
  | .error e => .error e
  | .ok c =>
    match vecSet m.freeListIndex sectionID (c - 1) with
    | .error e => .error e
    | .ok fli => .ok { m with freeListIndex := fli }

/-- `MemoryManager::FLUSH`: copy all six fields into the addressed cell. -/
def State.FLUSH (m : State T) (key : Int) (item : T) (validBits : Nat)
    (insertValidFlag deleteValidFlag : Bool) (next : Nat)
    (durableAddrPre durableAddrPost : Int) : Except CppErr (State T) :=
  match vecAt m.memPool durableAddrPre with
  | .error e => .error e
  | .ok row =>
    match vecAt row durableAddrPost with
    | .error e => .error e
    | .ok cell =>
      match vecSet row durableAddrPost
          (cell.COPY key item validBits insertValidFlag deleteValidFlag next) with
      | .error e => .error e
      | .ok row' =>
        match vecSet m.memPool durableAddrPre row' with
        | .error e => .error e
        | .ok pool => .ok { m with memPool := pool }

/-- Intermediate state threaded through the `readResetMemory` loops. -/
structure ScanState (T : Type) where
  memPool : List (List (MemCell T))
  freeListIndex : List Int
  keys : List Int
  items : List T
  durableAddrPres : List Int
  activeNodes : List Int
  count : Nat
  deriving DecidableEq, Repr

/-- One round of the inner loop of `MemoryManager::readResetMemory`
(lines 130-141) exactly as written: the loop header is
`for (int j = 0; j < this->memPoolSectionSize; i++)`, so `j` stays `0`
and the OUTER index `i` is incremented each iteration.  The loop body can
therefore only exit through the bounds check of `memPool.at(i)`.
The `.ok` exit is taken only when the guard `j < memPoolSectionSize`
fails on entry, i.e. when the section size is zero and the state is
untouched. -/
def scanInner [Zero T] (size : Nat) (i : Nat) (st : ScanState T) :
    Except CppErr (ScanState T) :=
  if 0 < size then
    if hi : i < st.memPool.length then
      let row := st.memPool.get ⟨i, hi⟩
      match vecAt row 0 with
      | .error e => .error e
      | .ok c =>
        let live := c.isValid
        let keys' := if live then st.keys ++ [c.key] else st.keys
        let items' := if live then st.items ++ [c.item] else st.items
        let pres' := if live then st.durableAddrPres ++ [(i : Int)] else st.durableAddrPres
        let count' := if live then st.count + 1 else st.count
        match (if live then
                 (vecAt st.activeNodes i).bind fun a =>
                   vecSet st.activeNodes i (a + 1)
               else .ok st.activeNodes) with
        | .error e => .error e
        | .ok active' =>
          match vecSet row 0 (MemCell.blank) with
          | .error e => .error e
          | .ok row' =>
            match (vecAt st.freeListIndex i).bind fun f =>
                    vecSet st.freeListIndex i (f + 1) with
            | .error e => .error e
            | .ok fli' =>
              scanInner size (i + 1)
                { memPool := st.memPool.set i row'
                  freeListIndex := fli'
                  keys := keys'
                  items := items'
                  durableAddrPres := pres'
                  activeNodes := active'
                  count := count' }
    else .error .outOfRange
  else .ok st
termination_by st.memPool.length - i
decreasing_by simp [List.length_set]; omega

/-- The outer loop of `MemoryManager::readResetMemory` (lines 128-142):
set the section's cursor to `0`, run the inner loop, move to the next
section.  Because the inner loop returns normally only when it ran zero
iterations, the outer index is simply incremented. -/
def scanOuter [Zero T] (numSections size : Nat) (i : Nat) (st : ScanState T) :
    Except CppErr (ScanState T) :=
  if i < numSections then
    match vecSet st.freeListIndex i 0 with
    | .error e => .error e
    | .ok fli =>
      match scanInner size i { st with freeListIndex := fli } with
      | .error e => .error e
      | .ok st' => scanOuter numSections size (i + 1) st'
  else .ok st
termination_by numSections - i

/-- `MemoryManager::readResetMemory` exactly as written (with its inner-loop
typo).  The output vectors start as the caller passes them (empty lists and
a zeroed `activeNodes` in every `recover`). -/
def State.readResetMemory [Zero T] (m : State T)
    (keys : List Int) (items : List T) (durableAddrPres : List Int)
    (activeNodes : List Int) : Except CppErr (ScanState T) :=
  scanOuter m.numMemPoolSections m.memPoolSectionSize 0
    { memPool := m.memPool, freeListIndex := m.freeListIndex,
      keys, items, durableAddrPres, activeNodes, count := 0 }

end MemoryManager

/-! ## Volatile list machines

The four bit-mask-flavor sets are embedded as state machines executing
quiescently (single-threaded): locks always succeed and compare-and-swap
never observes interference, which is the semantics of any quiescent
point.  The reachable chain of volatile nodes between the `head` and
`tail` sentinels is represented as a `List`; the tail's key `MAX_KEY` and
its null `next` pointer are produced by the end-of-list cases.  A node's
`marked` field embeds the tombstone (low) bit of its `next` pointer.
`mem->FLUSH` calls keep their `std::vector::at` bounds checks on the
durable coordinates; the copied cell payload is not retained by these
machine states because none of the claims settled on them reads it back.
-/

/-- Volatile `Node` of the Sequential / Lock / MRLock sets.  The three
structs differ only by the per-node `std::mutex` (Lock) and `resourceID`
(MRLock), neither of which affects the quiescent list semantics; the
MRLock resource-ID assignment is embedded separately for claim C9. -/
structure VNode (T : Type) where
  key : Int
  item : T
  validBits : Nat
  marked : Bool
  durableAddrPre : Int
  durableAddrPost : Int
  deriving DecidableEq, Repr

/-- Key of the `current` node returned by `find`: the head of the suffix,
or the tail sentinel's `MAX_KEY` when the suffix is empty. -/
def currKey {T : Type} : List (VNode T) → Int
  | [] => MAX_KEY
  | n :: _ => n.key

/-- Tombstone bit of the `current` node: the tail's `next` is null, so its
mark bit is always clear. -/
def currMarked {T : Type} : List (VNode T) → Bool
  | [] => false
  | n :: _ => n.marked

/-- The `find` walk shared verbatim by `SequentialDurableSet::find`,
`LockDurableSet::find` and `MRLockDurableSet::find`: advance while
`current->key < key` and return the pair `(previous, current)` as the
split of the chain at the first node whose key is `≥ key`.  If the walk
exhausts the interior chain it stops at the tail sentinel (`MAX_KEY`);
with `key > MAX_KEY` it would step to `tail->next == nullptr` and
dereference it. -/
def findAux {T : Type} (chain : List (VNode T)) (key : Int) :
    Except CppErr (List (VNode T) × List (VNode T)) :=
  match chain with
  | [] => if key ≤ MAX_KEY then .ok ([], []) else .error .nullDeref
  | n :: rest =>
    if key ≤ n.key then .ok ([], n :: rest)
    else
      match findAux rest key with
      | .error e => .error e
      | .ok (p, s) => .ok (n :: p, s)

/-- Bounds checks performed by `MemoryManager::FLUSH` through
`memPool.at(durableAddrPre).at(durableAddrPost)`. -/
def flushCheck (numSections sectionSize : Nat) (pre post : Int) : Except CppErr Unit :=
  if 0 ≤ pre ∧ pre.toNat < numSections then
    if 0 ≤ post ∧ post.toNat < sectionSize then .ok ()
    else .error .outOfRange
  else .error .outOfRange

namespace SequentialDurableSet

variable {T : Type}

/-- State of a `SequentialDurableSet` together with the slice of its
`MemoryManager` it interacts with (`sequential = 0` is the only section
it uses; `freeListIndex` is the manager's cursor vector). -/
structure State (T : Type) where
  chain : List (VNode T)
  allocIndices : Int
  maxIndices : Int
  poolSize : Nat
  numMemSections : Nat
  memSectionSize : Nat
  freeListIndex : List Int
  deriving DecidableEq, Repr

/-- The `SequentialDurableSet(mem, abortFlag, maxWriteOps)` constructor,
paired with a `MemoryManager(memSections, memOps)` as the driver does:
empty chain, volatile cursor `maxWriteOps - 1`, durable cursors
`memOps - 1`. -/
def construct (memSections memOps maxWriteOps : Nat) : State T :=
  { chain := []
    allocIndices := (maxWriteOps : Int) - 1
    maxIndices := (maxWriteOps : Int)
    poolSize := maxWriteOps
    numMemSections := memSections
    memSectionSize := memOps
    freeListIndex := List.replicate memSections ((memOps : Int) - 1) }

/-- `SequentialDurableSet::allocFromArea`: fetch
`preAllocatedNodes.at(allocIndices)` (bounds-checked!), then
`retrieveAddress(sequential)`; a cursor of `-1` yields a null node
(`none`).  Note the pool fetch precedes the `-1` test. -/
def allocFromArea (s : State T) : Except CppErr (Option Int) :=
  if 0 ≤ s.allocIndices ∧ s.allocIndices.toNat < s.poolSize then
    match vecAt s.freeListIndex 0 with
    | .error e => .error e
    | .ok durAddr => if durAddr = -1 then .ok none else .ok (some durAddr)
  else .error .outOfRange

/-- `SequentialDurableSet::updateAlloc`: decrement the volatile cursor and
`updateAddress(sequential)`. -/
def updateAlloc (s : State T) : Except CppErr (State T) :=
  match vecAt s.freeListIndex 0 with
  | .error e => .error e
  | .ok f =>
    match vecSet s.freeListIndex 0 (f - 1) with
    | .error e => .error e
    | .ok fli => .ok { s with allocIndices := s.allocIndices - 1, freeListIndex := fli }

/-- `SequentialDurableSet::insert` (lines 560-589): find, refuse a
duplicate, allocate, then `flipV1`, write the fields, link, `updateAlloc`,
`makeValid` (the linked node ends with `validBits = 3`), and
`FLUSH_INSERT` at durable address `(0, durAddr)`. -/
def insert (s : State T) (key : Int) (item : T) : Except CppErr (State T × Bool) :=
  match findAux s.chain key with
  | .error e => .error e
  | .ok (pre, suf) =>
    if currKey suf = key then .ok (s, false)
    else
      match allocFromArea s with
      | .error e => .error e
      | .ok none => .ok (s, false)
      | .ok (some durAddr) =>
        let newNode : VNode T :=
          { key, item, validBits := 0 ||| 1 ||| 2, marked := false,
            durableAddrPre := 0, durableAddrPost := durAddr }
        match updateAlloc { s with chain := pre ++ newNode :: suf } with
        | .error e => .error e
        | .ok s1 =>
          match flushCheck s1.numMemSections s1.memSectionSize 0 durAddr with
          | .error e => .error e
          | .ok _ => .ok (s1, true)

/-- The walk of `SequentialDurableSet::contains` (lines 592-598): advance
while `current->key < key`; report whether the stopping key equals `key`.
Reaching the tail with `MAX_KEY < key` walks into `tail->next == nullptr`. -/
def containsAux (chain : List (VNode T)) (key : Int) : Except CppErr Bool :=
  match chain with
  | [] => if MAX_KEY < key then .error .nullDeref else .ok (MAX_KEY = key)
  | n :: rest => if n.key < key then containsAux rest key else .ok (n.key = key)

/-- `SequentialDurableSet::contains`. -/
def contains (s : State T) (key : Int) : Except CppErr Bool :=
  containsAux s.chain key

/-- `SequentialDurableSet::remove` (lines 602-622): find; a key mismatch
returns `false`; otherwise mark `current`, unlink it, and `FLUSH_DELETE`
it.  When `current` is the tail sentinel (`key = MAX_KEY`) the flush
addresses the arena at the tail's durable coordinates `(-1, -1)`. -/
def remove (s : State T) (key : Int) : Except CppErr (State T × Bool) :=
  match findAux s.chain key with
  | .error e => .error e
  | .ok (pre, suf) =>
    match suf with
    | [] =>
      if MAX_KEY ≠ key then .ok (s, false)
      else
        match flushCheck s.numMemSections s.memSectionSize (-1) (-1) with
        | .error e => .error e
        | .ok _ => .ok ({ s with chain := pre }, true)
    | c :: rest =>
      if c.key ≠ key then .ok (s, false)
      else
        match flushCheck s.numMemSections s.memSectionSize c.durableAddrPre c.durableAddrPost with
        | .error e => .error e
        | .ok _ => .ok ({ s with chain := pre ++ rest }, true)

/-- States reachable from a freshly constructed `SequentialDurableSet` by
completed public operations on non-sentinel keys (the specification's key
domain is the open interval `(MIN_KEY, MAX_KEY)`).  `contains` does not
touch the state, so only `insert` and `remove` appear. -/
inductive Reachable : State T → Prop where
  | construct (memSections memOps maxWriteOps : Nat) :
      Reachable (SequentialDurableSet.construct memSections memOps maxWriteOps)
  | insert {s s' : State T} {key : Int} {item : T} {b : Bool} :
      Reachable s → MIN_KEY < key → key < MAX_KEY →
      SequentialDurableSet.insert s key item = .ok (s', b) → Reachable s'
  | remove {s s' : State T} {key : Int} {b : Bool} :
      Reachable s → MIN_KEY < key → key < MAX_KEY →
      SequentialDurableSet.remove s key = .ok (s', b) → Reachable s'

end SequentialDurableSet

namespace LockDurableSet

variable {T : Type}

/-- State of a `LockDurableSet` (per-writer pools and cursors) together
with the cursor vector of its `MemoryManager`.  The per-node mutexes have
no effect on the quiescent semantics and carry no state here. -/
structure State (T : Type) where
  chain : List (VNode T)
  allocIndices : List Int
  maxIndices : List Int
  poolSizes : List Nat
  numIDs : Nat
  numMemSections : Nat
  memSectionSize : Nat
  freeListIndex : List Int
  deriving DecidableEq, Repr

/-- The `LockDurableSet(mem, abortFlag, numIDs, writeOpsVector)`
constructor, paired with a `MemoryManager(numIDs, memOps)` as the driver
does (`memOps` is the maximal per-writer write budget). -/
def construct (writeOpsVector : List Nat) (memOps : Nat) : State T :=
  { chain := []
    allocIndices := writeOpsVector.map (fun w => (w : Int) - 1)
    maxIndices := writeOpsVector.map (fun w => (w : Int))
    poolSizes := writeOpsVector
    numIDs := writeOpsVector.length
    numMemSections := writeOpsVector.length
    memSectionSize := memOps
    freeListIndex := List.replicate writeOpsVector.length ((memOps : Int) - 1) }

/-- `LockDurableSet::allocFromArea` (lines 107-119): fetch
`preAllocatedNodes.at(id).at(allocIndices.at(id))` (both bounds-checked),
then `retrieveAddress(id)`; a cursor of `-1` yields a null node.  The
pool fetch precedes the `-1` test. -/
def allocFromArea (s : State T) (id : Int) : Except CppErr (Option Int) :=
  match vecAt s.poolSizes id with
  | .error e => .error e
  | .ok pool =>
    match vecAt s.allocIndices id with
    | .error e => .error e
    | .ok ai =>
      if 0 ≤ ai ∧ ai.toNat < pool then
        match vecAt s.freeListIndex id with
        | .error e => .error e
        | .ok durAddr => if durAddr = -1 then .ok none else .ok (some durAddr)
      else .error .outOfRange

/-- `LockDurableSet::updateAlloc`: decrement the writer's volatile cursor
and `updateAddress(id)`. -/
def updateAlloc (s : State T) (id : Int) : Except CppErr (State T) :=
  match vecAt s.allocIndices id with
  | .error e => .error e
  | .ok ai =>
    match vecSet s.allocIndices id (ai - 1) with
    | .error e => .error e
    | .ok ai' =>
      match vecAt s.freeListIndex id with
      | .error e => .error e
      | .ok f =>
        match vecSet s.freeListIndex id (f - 1) with
        | .error e => .error e
        | .ok fli => .ok { s with allocIndices := ai', freeListIndex := fli }

/-- `LockDurableSet::insert` (lines 188-235).  After `find`, both nodes
are locked and re-validated; in a quiescent execution
`previous->next == current` holds by construction, so the validation can
only fail on `current->isNextMarked()`, in which case the retry loop can
never exit (`nonTermination`).  Then as in the sequential variant:
refuse duplicates, allocate (bounds-checked pool fetch first), link with
`validBits = 3`, `updateAlloc`, `FLUSH_INSERT` at `(id, durAddr)`. -/
def insert (s : State T) (key : Int) (item : T) (id : Int) :
    Except CppErr (State T × Bool) :=
  match findAux s.chain key with
  | .error e => .error e
  | .ok (pre, suf) =>
    if currMarked suf then .error .nonTermination
    else if currKey suf = key then .ok (s, false)
    else
      match allocFromArea s id with
      | .error e => .error e
      | .ok none => .ok (s, false)
      | .ok (some durAddr) =>
        let newNode : VNode T :=
          { key, item, validBits := 0 ||| 1 ||| 2, marked := false,
            durableAddrPre := id, durableAddrPost := durAddr }
        match updateAlloc { s with chain := pre ++ newNode :: suf } id with
        | .error e => .error e
        | .ok s1 =>
          match flushCheck s1.numMemSections s1.memSectionSize id durAddr with
          | .error e => .error e
          | .ok _ => .ok (s1, true)

/-- The walk of `LockDurableSet::contains` (lines 238-244): advance while
`current->key < key`; report `current->key == key && !isNextMarked()`.
The tail's `next` is null, so its mark bit reads clear. -/
def containsAux (chain : List (VNode T)) (key : Int) : Except CppErr Bool :=
  match chain with
  | [] => if MAX_KEY < key then .error .nullDeref
          else .ok (MAX_KEY = key && !false)
  | n :: rest => if n.key < key then containsAux rest key
                 else .ok (n.key = key && !n.marked)

/-- `LockDurableSet::contains`. -/
def contains (s : State T) (key : Int) : Except CppErr Bool :=
  containsAux s.chain key

/-- `LockDurableSet::remove` (lines 248-286): find, lock, validate (as in
`insert`), refuse a key mismatch, otherwise mark `current`, unlink it and
`FLUSH_DELETE` it (`(-1, -1)` when `current` is the tail sentinel).  The
unused writer id of the source signature is kept. -/
def remove (s : State T) (key : Int) (_id : Int) : Except CppErr (State T × Bool) :=
  match findAux s.chain key with
  | .error e => .error e
  | .ok (pre, suf) =>
    if currMarked suf then .error .nonTermination
    else
      match suf with
      | [] =>
        if MAX_KEY ≠ key then .ok (s, false)
        else
          match flushCheck s.numMemSections s.memSectionSize (-1) (-1) with
          | .error e => .error e
          | .ok _ => .ok ({ s with chain := pre }, true)
      | c :: rest =>
        if c.key ≠ key then .ok (s, false)
        else
          match flushCheck s.numMemSections s.memSectionSize c.durableAddrPre c.durableAddrPost with
          | .error e => .error e
          | .ok _ => .ok ({ s with chain := pre ++ rest }, true)

/-- States reachable from a freshly constructed `LockDurableSet` by
completed public operations on non-sentinel keys. -/
inductive Reachable : State T → Prop where
  | construct (writeOpsVector : List Nat) (memOps : Nat) :
      Reachable (LockDurableSet.construct writeOpsVector memOps)
  | insert {s s' : State T} {key : Int} {item : T} {id : Int} {b : Bool} :
      Reachable s → MIN_KEY < key → key < MAX_KEY →
      LockDurableSet.insert s key item id = .ok (s', b) → Reachable s'
  | remove {s s' : State T} {key : Int} {id : Int} {b : Bool} :
      Reachable s → MIN_KEY < key → key < MAX_KEY →
      LockDurableSet.remove s key id = .ok (s', b) → Reachable s'

end LockDurableSet

namespace MRLockDurableSet

variable {T : Type}

/-- The `MRLockDurableSet` volatile-list state coincides with the
`LockDurableSet` one: the variants differ only in how they lock
(`MRLock` bit-mask requests instead of two mutexes), which has no effect
on the quiescent list semantics.  The resource-ID assignment of its
constructor is embedded below for claim C9. -/
abbrev State (T : Type) := LockDurableSet.State T

/-- `MRLockDurableSet::allocFromArea` (lines 106-117), textually the same
as the Lock variant's. -/
def allocFromArea (s : State T) (id : Int) : Except CppErr (Option Int) :=
  match vecAt s.poolSizes id with
  | .error e => .error e
  | .ok pool =>
    match vecAt s.allocIndices id with
    | .error e => .error e
    | .ok ai =>
      if 0 ≤ ai ∧ ai.toNat < pool then
        match vecAt s.freeListIndex id with
        | .error e => .error e
        | .ok durAddr => if durAddr = -1 then .ok none else .ok (some durAddr)
      else .error .outOfRange

/-- `MRLockDurableSet::updateAlloc` (lines 120-123). -/
def updateAlloc (s : State T) (id : Int) : Except CppErr (State T) :=
  match vecAt s.allocIndices id with
  | .error e => .error e
  | .ok ai =>
    match vecSet s.allocIndices id (ai - 1) with
    | .error e => .error e
    | .ok ai' =>
      match vecAt s.freeListIndex id with
      | .error e => .error e
      | .ok f =>
        match vecSet s.freeListIndex id (f - 1) with
        | .error e => .error e
        | .ok fli => .ok { s with allocIndices := ai', freeListIndex := fli }

/-- `MRLockDurableSet::insert` (lines 199-283): identical to the Lock
variant's after the one- or two-mask `MRLock` acquisitions, which always
succeed quiescently. -/
def insert (s : State T) (key : Int) (item : T) (id : Int) :
    Except CppErr (State T × Bool) :=
  match findAux s.chain key with
  | .error e => .error e
  | .ok (pre, suf) =>
    if currMarked suf then .error .nonTermination
    else if currKey suf = key then .ok (s, false)
    else
      match allocFromArea s id with
      | .error e => .error e
      | .ok none => .ok (s, false)
      | .ok (some durAddr) =>
        let newNode : VNode T :=
          { key, item, validBits := 0 ||| 1 ||| 2, marked := false,
            durableAddrPre := id, durableAddrPost := durAddr }
        match updateAlloc { s with chain := pre ++ newNode :: suf } id with
        | .error e => .error e
        | .ok s1 =>
          match flushCheck s1.numMemSections s1.memSectionSize id durAddr with
          | .error e => .error e
          | .ok _ => .ok (s1, true)

/-- The walk of `MRLockDurableSet::contains` (lines 286-292), textually
the same as the Lock variant's. -/
def containsAux (chain : List (VNode T)) (key : Int) : Except CppErr Bool :=
  match chain with
  | [] => if MAX_KEY < key then .error .nullDeref
          else .ok (MAX_KEY = key && !false)
  | n :: rest => if n.key < key then containsAux rest key
                 else .ok (n.key = key && !n.marked)

/-- `MRLockDurableSet::contains`. -/
def contains (s : State T) (key : Int) : Except CppErr Bool :=
  containsAux s.chain key

/-- `MRLockDurableSet::remove` (lines 296-365): identical to the Lock
variant's after the lock acquisitions. -/
def remove (s : State T) (key : Int) (_id : Int) : Except CppErr (State T × Bool) :=
  match findAux s.chain key with
  | .error e => .error e
  | .ok (pre, suf) =>
    if currMarked suf then .error .nonTermination
    else
      match suf with
      | [] =>
        if MAX_KEY ≠ key then .ok (s, false)
        else
          match flushCheck s.numMemSections s.memSectionSize (-1) (-1) with
          | .error e => .error e
          | .ok _ => .ok ({ s with chain := pre }, true)
      | c :: rest =>
        if c.key ≠ key then .ok (s, false)
        else
          match flushCheck s.numMemSections s.memSectionSize c.durableAddrPre c.durableAddrPost with
          | .error e => .error e
          | .ok _ => .ok ({ s with chain := pre ++ rest }, true)

/-- States reachable from a freshly constructed `MRLockDurableSet` by
completed public operations on non-sentinel keys. -/
inductive Reachable : State T → Prop where
  | construct (writeOpsVector : List Nat) (memOps : Nat) :
      Reachable (LockDurableSet.construct writeOpsVector memOps)
  | insert {s s' : State T} {key : Int} {item : T} {id : Int} {b : Bool} :
      Reachable s → MIN_KEY < key → key < MAX_KEY →
      MRLockDurableSet.insert s key item id = .ok (s', b) → Reachable s'
  | remove {s s' : State T} {key : Int} {id : Int} {b : Bool} :
      Reachable s → MIN_KEY < key → key < MAX_KEY →
      MRLockDurableSet.remove s key id = .ok (s', b) → Reachable s'

end MRLockDurableSet

namespace LinkFreeDurableSet

variable {T : Type}

/-- Volatile `Node` of `LinkFreeDurableSet` (lines 21-94): adds the two
flush-deduplication flags to the common fields.  `marked` embeds the
tombstone (low) bit of the atomic `next` pointer. -/
structure Node (T : Type) where
  key : Int
  item : T
  validBits : Nat
  insertValidFlag : Bool
  deleteValidFlag : Bool
  marked : Bool
  durableAddrPre : Int
  durableAddrPost : Int
  deriving DecidableEq, Repr

/-- State of a `LinkFreeDurableSet` together with the cursor vector of
its `MemoryManager`. -/
structure State (T : Type) where
  chain : List (Node T)
  allocIndices : List Int
  maxIndices : List Int
  poolSizes : List Nat
  numIDs : Nat
  numMemSections : Nat
  memSectionSize : Nat
  freeListIndex : List Int
  deriving DecidableEq, Repr

/-- The `LinkFreeDurableSet(mem, abortFlag, numIDs, writeOpsVector)`
constructor, paired with a `MemoryManager(numIDs, memOps)`. -/
def construct (writeOpsVector : List Nat) (memOps : Nat) : State T :=
  { chain := []
    allocIndices := writeOpsVector.map (fun w => (w : Int) - 1)
    maxIndices := writeOpsVector.map (fun w => (w : Int))
    poolSizes := writeOpsVector
    numIDs := writeOpsVector.length
    numMemSections := writeOpsVector.length
    memSectionSize := memOps
    freeListIndex := List.replicate writeOpsVector.length ((memOps : Int) - 1) }

/-- `Node::FLUSH_INSERT` (lines 66-78): flush only if `insertValidFlag`
is still clear, then set it.  The flush keeps its arena bounds checks. -/
def FLUSH_INSERT (numSections sectionSize : Nat) (n : Node T) :
    Except CppErr (Node T) :=
  if n.insertValidFlag = false then
    match flushCheck numSections sectionSize n.durableAddrPre n.durableAddrPost with
    | .error e => .error e
    | .ok _ => .ok { n with insertValidFlag := true }
  else .ok n

/-- `Node::FLUSH_DELETE` (lines 80-92): flush only if `deleteValidFlag`
is still clear, then set it. -/
def FLUSH_DELETE (numSections sectionSize : Nat) (n : Node T) :
    Except CppErr (Node T) :=
  if n.deleteValidFlag = false then
    match flushCheck numSections sectionSize n.durableAddrPre n.durableAddrPost with
    | .error e => .error e
    | .ok _ => .ok { n with deleteValidFlag := true }
  else .ok n

/-- `LinkFreeDurableSet::find` (lines 143-161): advance past unmarked
nodes with `key < key`, and `trim` every marked node encountered (the
trim first `FLUSH_DELETE`s the node, then unlinks it with a CAS that
succeeds quiescently).  Returns the split `(previous, current)` of the
post-trim chain; the walked-off tail case is as in the other variants. -/
def findAux (numSections sectionSize : Nat) (chain : List (Node T)) (key : Int) :
    Except CppErr (List (Node T) × List (Node T)) :=
  match chain with
  | [] => if key ≤ MAX_KEY then .ok ([], []) else .error .nullDeref
  | n :: rest =>
    if n.marked = false then
      if key ≤ n.key then .ok ([], n :: rest)
      else
        match findAux numSections sectionSize rest key with
        | .error e => .error e
        | .ok (p, s) => .ok (n :: p, s)
    else
      match FLUSH_DELETE numSections sectionSize n with
      | .error e => .error e
      | .ok _ => findAux numSections sectionSize rest key

/-- `LinkFreeDurableSet::allocFromArea` (lines 112-123), the same
bounds-checked pool fetch before the `-1` cursor test as the Lock
variant's. -/
def allocFromArea (s : State T) (id : Int) : Except CppErr (Option Int) :=
  match vecAt s.poolSizes id with
  | .error e => .error e
  | .ok pool =>
    match vecAt s.allocIndices id with
    | .error e => .error e
    | .ok ai =>
      if 0 ≤ ai ∧ ai.toNat < pool then
        match vecAt s.freeListIndex id with
        | .error e => .error e
        | .ok durAddr => if durAddr = -1 then .ok none else .ok (some durAddr)
      else .error .outOfRange

/-- `LinkFreeDurableSet::updateAlloc` (lines 126-129). -/
def updateAlloc (s : State T) (id : Int) : Except CppErr (State T) :=
  match vecAt s.allocIndices id with
  | .error e => .error e
  | .ok ai =>
    match vecSet s.allocIndices id (ai - 1) with
    | .error e => .error e
    | .ok ai' =>
      match vecAt s.freeListIndex id with
      | .error e => .error e
      | .ok f =>
        match vecSet s.freeListIndex id (f - 1) with
        | .error e => .error e
        | .ok fli => .ok { s with allocIndices := ai', freeListIndex := fli }

/-- Key of the `current` node, with the tail sentinel for an empty
suffix. -/
def lfCurrKey : List (Node T) → Int
  | [] => MAX_KEY
  | n :: _ => n.key

/-- `LinkFreeDurableSet::insert` (lines 207-239): find (which trims); on
a duplicate, help by `makeValid` + `FLUSH_INSERT` on `current` and return
`false` (when `current` is the tail sentinel — only possible for
`key = MAX_KEY` — the helping flush addresses the arena at `(-1, -1)`);
otherwise allocate, publish with `validBits = 1`, CAS-link (succeeds
quiescently), `updateAlloc`, `makeValid`, `FLUSH_INSERT`. -/
def insert (s : State T) (key : Int) (item : T) (id : Int) :
    Except CppErr (State T × Bool) :=
  match findAux s.numMemSections s.memSectionSize s.chain key with
  | .error e => .error e
  | .ok (pre, suf) =>
    if lfCurrKey suf = key then
      match suf with
      | [] =>
        match flushCheck s.numMemSections s.memSectionSize (-1) (-1) with
        | .error e => .error e
        | .ok _ => .ok ({ s with chain := pre }, false)
      | c :: rest =>
        let c1 := { c with validBits := c.validBits ||| 2 }
        match FLUSH_INSERT s.numMemSections s.memSectionSize c1 with
        | .error e => .error e
        | .ok c2 => .ok ({ s with chain := pre ++ c2 :: rest }, false)
    else
      match allocFromArea s id with
      | .error e => .error e
      | .ok none => .ok ({ s with chain := pre ++ suf }, false)
      | .ok (some durAddr) =>
        let newNode : Node T :=
          { key, item, validBits := 0 ||| 1 ||| 2,
            insertValidFlag := true, deleteValidFlag := false, marked := false,
            durableAddrPre := id, durableAddrPost := durAddr }
        match updateAlloc { s with chain := pre ++ newNode :: suf } id with
        | .error e => .error e
        | .ok s1 =>
          match flushCheck s1.numMemSections s1.memSectionSize id durAddr with
          | .error e => .error e
          | .ok _ => .ok (s1, true)

/-- The walk of `LinkFreeDurableSet::contains` (lines 245-262): advance
while `current->key < key` ignoring marks; on a key match, help flush:
`FLUSH_DELETE` and report absent if marked, else `makeValid` +
`FLUSH_INSERT` and report present.  Finding the tail (`key = MAX_KEY`)
takes the helping-flush path with the tail's `(-1, -1)` coordinates. -/
def containsAux (numSections sectionSize : Nat) (chain : List (Node T)) (key : Int) :
    Except CppErr (List (Node T) × Bool) :=
  match chain with
  | [] =>
    if MAX_KEY < key then .error .nullDeref
    else if MAX_KEY ≠ key then .ok ([], false)
    else
      match flushCheck numSections sectionSize (-1) (-1) with
      | .error e => .error e
      | .ok _ => .ok ([], true)
  | n :: rest =>
    if n.key < key then
      match containsAux numSections sectionSize rest key with
      | .error e => .error e
      | .ok (rest', b) => .ok (n :: rest', b)
    else if n.key ≠ key then .ok (n :: rest, false)
    else if n.marked then
      match FLUSH_DELETE numSections sectionSize n with
      | .error e => .error e
      | .ok n' => .ok (n' :: rest, false)
    else
      let n1 := { n with validBits := n.validBits ||| 2 }
      match FLUSH_INSERT numSections sectionSize n1 with
      | .error e => .error e
      | .ok n' => .ok (n' :: rest, true)

/-- `LinkFreeDurableSet::contains`: unlike the other variants it may
mutate node flags (helping flushes), so it returns a state. -/
def contains (s : State T) (key : Int) : Except CppErr (State T × Bool) :=
  match containsAux s.numMemSections s.memSectionSize s.chain key with
  | .error e => .error e
  | .ok (chain', b) => .ok ({ s with chain := chain' }, b)

/-- `LinkFreeDurableSet::remove` (lines 269-292): find (which trims); a
key mismatch returns `false`; otherwise `makeValid`, CAS-mark the node
(succeeds quiescently), then `trim`: `FLUSH_DELETE` and unlink.  When
`current` is the tail sentinel (`key = MAX_KEY`) the trim's flush
addresses the arena at `(-1, -1)`. -/
def remove (s : State T) (key : Int) : Except CppErr (State T × Bool) :=
  match findAux s.numMemSections s.memSectionSize s.chain key with
  | .error e => .error e
  | .ok (pre, suf) =>
    if lfCurrKey suf ≠ key then .ok ({ s with chain := pre ++ suf }, false)
    else
      match suf with
      | [] =>
        match flushCheck s.numMemSections s.memSectionSize (-1) (-1) with
        | .error e => .error e
        | .ok _ => .ok ({ s with chain := pre }, true)
      | c :: rest =>
        let c1 := { c with validBits := c.validBits ||| 2, marked := true }
        match FLUSH_DELETE s.numMemSections s.memSectionSize c1 with
        | .error e => .error e
        | .ok _ => .ok ({ s with chain := pre ++ rest }, true)

/-- States reachable from a freshly constructed `LinkFreeDurableSet` by
completed public operations on non-sentinel keys (`contains` can mutate
flags here, so it is a step too). -/
inductive Reachable : State T → Prop where
  | construct (writeOpsVector : List Nat) (memOps : Nat) :
      Reachable (LinkFreeDurableSet.construct writeOpsVector memOps)
  | insert {s s' : State T} {key : Int} {item : T} {id : Int} {b : Bool} :
      Reachable s → MIN_KEY < key → key < MAX_KEY →
      LinkFreeDurableSet.insert s key item id = .ok (s', b) → Reachable s'
  | remove {s s' : State T} {key : Int} {b : Bool} :
      Reachable s → MIN_KEY < key → key < MAX_KEY →
      LinkFreeDurableSet.remove s key = .ok (s', b) → Reachable s'
  | contains {s s' : State T} {key : Int} {b : Bool} :
      Reachable s → MIN_KEY < key → key < MAX_KEY →
      LinkFreeDurableSet.contains s key = .ok (s', b) → Reachable s'

end LinkFreeDurableSet

namespace SOFTDurableSet

/-- The four node states of the SOFT protocol (lines 90-93). -/
def INTEND_TO_INSERT : Nat := 0

/-- SOFT state `INSERTED`. -/
def INSERTED : Nat := 1

/-- SOFT state `INTEND_TO_DELETE`. -/
def INTEND_TO_DELETE : Nat := 2

/-- SOFT state `DELETED`. -/
def DELETED : Nat := 3

/-- The sentinel layout produced by a `SOFTDurableSet` constructor or
recovery: the keys of `head`, `tailOne`, `tailTwo` and the state bits
embedded in `head->next` and `tailOne->next`. -/
structure Sentinels where
  headKey : Int
  tailOneKey : Int
  tailTwoKey : Int
  headNextState : Nat
  tailOneNextState : Nat
  deriving DecidableEq, Repr

/-- Sentinel creation of the `SOFTDurableSet` constructor
(`SOFTDurableSet.h` lines 217-225): keys `MIN_KEY`, `MAX_KEY`,
`MAX_KEY + 1`; both sentinel links carry state `INSERTED`. -/
def constructSentinels : Sentinels :=
  { headKey := MIN_KEY
    tailOneKey := MAX_KEY
    tailTwoKey := MAX_KEY + 1
    headNextState := INSERTED
    tailOneNextState := INSERTED }

/-- Sentinel re-creation of `SOFTDurableSet::recover`
(`SOFTDurableSet.h` lines 374-381): the keys assigned are `MIN_KEY`,
`MAX_KEY` and — unlike the constructor — `MAX_KEY` again for `tailTwo`
(line 379). -/
def recoverSentinels : Sentinels :=
  { headKey := MIN_KEY
    tailOneKey := MAX_KEY
    tailTwoKey := MAX_KEY
    headNextState := INSERTED
    tailOneNextState := INSERTED }

end SOFTDurableSet

namespace MRLockDurableSet

/-- The dedicated resource ID given to `head` by the `MRLockDurableSet`
constructor (line 173). -/
def headResourceID : Nat := 1

/-- The dedicated resource ID given to `tail` (line 174). -/
def tailResourceID : Nat := 2

/-- One step of the resource-ID cycle of the `MRLockDurableSet`
constructor (lines 162-170): after handing out the current `resourceID`,
shift it left (as a `std::uint32_t`), bump `pointBit`, and reset to
`(1, 1)` once `pointBit` exceeds `31`. -/
def resourceIDStep (resourceID pointBit : Nat) : Nat × Nat :=
  let rid := (resourceID <<< 1) % 2 ^ 32
  let pb := pointBit + 1
  if 31 < pb then (1, 1) else (rid, pb)

/-- The IDs handed to consecutively allocated nodes starting from cycle
state `(resourceID, pointBit)`. -/
def resourceIDsAux : Nat → Nat → Nat → List Nat
  | _, _, 0 => []
  | resourceID, pointBit, n + 1 =>
    resourceID ::
      (let st := resourceIDStep resourceID pointBit
       resourceIDsAux st.1 st.2 n)

/-- The one-hot resource IDs assigned by the `MRLockDurableSet`
constructor to its `total` pre-allocated nodes, in allocation order
across all writer sections: the cycle starts at
`resourceID = 4, pointBit = 3` (lines 156-158). -/
def preAllocResourceIDs (total : Nat) : List Nat :=
  resourceIDsAux 4 3 total

end MRLockDurableSet

/-! ## Sortedness of the traversal -/

/-- The head-to-tail traversal with interior keys `ks` yields strictly
ascending keys: `MIN_KEY`, then `ks`, then `MAX_KEY`, pairwise `<`. -/
def sortedKeys (ks : List Int) : Prop :=
  List.Pairwise (· < ·) (MIN_KEY :: ks ++ [MAX_KEY])

theorem sortedKeys_sublist {ks1 ks2 : List Int} (hsub : List.Sublist ks1 ks2)
    (h : sortedKeys ks2) : sortedKeys ks1 :=
  List.Pairwise.sublist (List.Sublist.cons₂ _ (hsub.append_right _)) h

theorem sortedKeys_lt_max {ks : List Int} (h : sortedKeys ks) :
    ∀ k ∈ ks, k < MAX_KEY := by
  have h' : List.Pairwise (· < ·) ((MIN_KEY :: ks) ++ [MAX_KEY]) := by
    simpa [sortedKeys] using h
  rcases List.pairwise_append.mp h' with ⟨-, -, X⟩
  intro k hk
  exact X k (List.mem_cons_of_mem _ hk) MAX_KEY (by simp)

theorem sortedKeys_insert_middle {l1 l2 : List Int} {x : Int}
    (h : sortedKeys (l1 ++ l2))
    (hmin : MIN_KEY < x) (hmax : x < MAX_KEY)
    (h1 : ∀ a ∈ l1, a < x) (h2 : ∀ b ∈ l2.head?, x < b) :
    sortedKeys (l1 ++ x :: l2) := by
  have h' : List.Pairwise (· < ·) ((MIN_KEY :: l1) ++ (l2 ++ [MAX_KEY])) := by
    simpa [sortedKeys] using h
  rcases List.pairwise_append.mp h' with ⟨P1, P2, X⟩
  have hall : ∀ b ∈ l2 ++ [MAX_KEY], x < b := by
    intro b hb
    rcases List.mem_append.mp hb with hb | hb
    · cases l2 with
      | nil => simp at hb
      | cons b0 bs =>
        have hx0 : x < b0 := h2 b0 (by simp)
        rcases List.mem_cons.mp hb with rfl | hb'
        · exact hx0
        · exact hx0.trans ((List.pairwise_cons.mp P2).1 b (List.mem_append_left _ hb'))
    · simp only [List.mem_singleton] at hb
      subst hb
      exact hmax
  have goal' : List.Pairwise (· < ·) ((MIN_KEY :: l1) ++ (x :: (l2 ++ [MAX_KEY]))) := by
    refine List.pairwise_append.mpr ⟨P1, List.pairwise_cons.mpr ⟨hall, P2⟩, ?_⟩
    intro a ha b hb
    rcases List.mem_cons.mp hb with rfl | hb'
    · rcases List.mem_cons.mp ha with rfl | ha'
      · exact hmin
      · exact h1 a ha'
    · exact X a ha b hb'
  simpa [sortedKeys] using goal'

/-! ## Properties of the shared `find` walk -/

theorem findAux_ok {T : Type} {chain : List (VNode T)} {key : Int}
    {p s : List (VNode T)} (h : findAux chain key = .ok (p, s)) :
    chain = p ++ s ∧ (∀ n ∈ p, n.key < key) ∧ ∀ n ∈ s.head?, key ≤ n.key := by
  induction chain generalizing p s with
  | nil =>
    unfold findAux at h
    split at h
    · obtain ⟨rfl, rfl⟩ : p = [] ∧ s = [] := by
        cases h
        exact ⟨rfl, rfl⟩
      simp
    · cases h
  | cons n rest ih =>
    unfold findAux at h
    split at h
    next hle =>
      obtain ⟨rfl, rfl⟩ : p = [] ∧ s = n :: rest := by
        cases h
        exact ⟨rfl, rfl⟩
      refine ⟨rfl, by simp, ?_⟩
      intro m hm
      simp only [List.head?, Option.mem_def, Option.some.injEq] at hm
      subst hm
      exact hle
    next hgt =>
      cases hf : findAux rest key with
      | error e => rw [hf] at h; cases h
      | ok ps =>
        obtain ⟨p', s'⟩ := ps
        rw [hf] at h
        obtain ⟨rfl, rfl⟩ : p = n :: p' ∧ s = s' := by
          cases h
          exact ⟨rfl, rfl⟩
        obtain ⟨hc, hp, hs⟩ := ih hf
        refine ⟨by simp [hc], ?_, hs⟩
        intro m hm
        rcases List.mem_cons.mp hm with rfl | hm'
        · exact lt_of_not_le hgt
        · exact hp m hm'

theorem findAux_append_stop {T : Type} {p : List (VNode T)} {m : VNode T}
    {s : List (VNode T)} {key : Int}
    (hp : ∀ n ∈ p, n.key < key) (hm : key ≤ m.key) :
    findAux (p ++ m :: s) key = .ok (p, m :: s) := by
  induction p with
  | nil => simp [findAux, hm]
  | cons a p ih =>
    have ha : a.key < key := hp a (by simp)
    have ih' := ih fun n hn => hp n (List.mem_cons_of_mem _ hn)
    simp [findAux, not_le.mpr ha, ih']

namespace SequentialDurableSet

variable {T : Type}

theorem seq_updateAlloc_ok_chain {s s1 : State T} (h : updateAlloc s = .ok s1) :
    s1.chain = s.chain := by
  unfold updateAlloc at h
  split at h
  · cases h
  · split at h
    · cases h
    · cases h
      rfl

theorem seq_insert_sortedKeys {s s' : State T} {key : Int} {item : T} {b : Bool}
    (hs : sortedKeys (s.chain.map VNode.key))
    (hmin : MIN_KEY < key) (hmax : key < MAX_KEY)
    (h : insert s key item = .ok (s', b)) :
    sortedKeys (s'.chain.map VNode.key) := by
  unfold insert at h
  split at h
  · cases h
  next p suf hf =>
    obtain ⟨hchain, hp, hsuf⟩ := findAux_ok hf
    split at h
    · cases h
      exact hs
    next hdup =>
      split at h
      · cases h
      · cases h
        exact hs
      next durAddr ha =>
        dsimp only at h
        split at h
        · cases h
        next s1 hu =>
          split at h
          · cases h
          · cases h
            rw [seq_updateAlloc_ok_chain hu]
            have hbase : sortedKeys (p.map VNode.key ++ suf.map VNode.key) := by
              have hs' := hs
              rw [hchain] at hs'
              simpa [List.map_append] using hs'
            have hins : sortedKeys (p.map VNode.key ++ key :: suf.map VNode.key) := by
              refine sortedKeys_insert_middle hbase hmin hmax ?_ ?_
              · intro a ha'
                rcases List.mem_map.mp ha' with ⟨n, hn, rfl⟩
                exact hp n hn
              · intro bk hbk
                cases suf with
                | nil => simp at hbk
                | cons n0 rest =>
                  simp only [List.map_cons, List.head?, Option.mem_def,
                    Option.some.injEq] at hbk
                  subst hbk
                  have hge : key ≤ n0.key := hsuf n0 (by simp)
                  have hne : n0.key ≠ key := by
                    simpa [currKey] using hdup
                  exact lt_of_le_of_ne hge (Ne.symm hne)
            simpa [List.map_append] using hins

theorem seq_remove_sortedKeys {s s' : State T} {key : Int} {b : Bool}
    (hs : sortedKeys (s.chain.map VNode.key))
    (h : remove s key = .ok (s', b)) :
    sortedKeys (s'.chain.map VNode.key) := by
  unfold remove at h
  split at h
  · cases h
  next p suf hf =>
    obtain ⟨hchain, -, -⟩ := findAux_ok hf
    split at h
    · -- suffix empty: current is the tail sentinel
      split at h
      · cases h
        exact hs
      · split at h
        · cases h
        next hflush =>
          exfalso
          simp [flushCheck] at hflush
    next c rest =>
      split at h
      · cases h
        exact hs
      · split at h
        · cases h
        · cases h
          have hsub : List.Sublist ((p ++ rest).map VNode.key)
              ((p ++ c :: rest).map VNode.key) := by
            simp only [List.map_append, List.map_cons]
            exact (List.sublist_cons_self _ _).append_left _
          rw [hchain] at hs
          exact sortedKeys_sublist hsub hs

/-- Every reachable `SequentialDurableSet` state has a strictly ascending
head-to-tail traversal. -/
theorem seq_reachable_sortedKeys {s : State T} (h : Reachable s) :
    sortedKeys (s.chain.map VNode.key) := by
  induction h with
  | construct memSections memOps maxWriteOps =>
    show sortedKeys (List.map VNode.key [])
    refine List.pairwise_cons.mpr ⟨?_, List.pairwise_singleton _ _⟩
    intro b hb
    have hb' : b = MAX_KEY := by simpa using hb
    subst hb'
    norm_num [MIN_KEY, MAX_KEY]
  | insert _ hmin hmax hstep ih => exact seq_insert_sortedKeys ih hmin hmax hstep
  | remove _ hmin hmax hstep ih => exact seq_remove_sortedKeys ih hstep

theorem seq_containsAux_max {chain : List (VNode T)}
    (h : ∀ n ∈ chain, n.key < MAX_KEY) :
    containsAux chain MAX_KEY = .ok true := by
  induction chain with
  | nil => simp [containsAux]
  | cons n rest ih =>
    have hn : n.key < MAX_KEY := h n (by simp)
    have ih' := ih fun m hm => h m (List.mem_cons_of_mem _ hm)
    simp [containsAux, hn, ih']

end SequentialDurableSet

namespace LockDurableSet

variable {T : Type}

theorem lock_updateAlloc_ok_chain {s s1 : State T} {id : Int}
    (h : updateAlloc s id = .ok s1) : s1.chain = s.chain := by
  unfold updateAlloc at h
  split at h
  · cases h
  · split at h
    · cases h
    · split at h
      · cases h
      · split at h
        · cases h
        · cases h
          rfl

theorem lock_insert_sortedKeys {s s' : State T} {key : Int} {item : T} {id : Int} {b : Bool}
    (hs : sortedKeys (s.chain.map VNode.key))
    (hmin : MIN_KEY < key) (hmax : key < MAX_KEY)
    (h : insert s key item id = .ok (s', b)) :
    sortedKeys (s'.chain.map VNode.key) := by
  unfold insert at h
  split at h
  · cases h
  next p suf hf =>
    obtain ⟨hchain, hp, hsuf⟩ := findAux_ok hf
    split at h
    · cases h
    split at h
    · cases h
      exact hs
    next hdup =>
      split at h
      · cases h
      · cases h
        exact hs
      next durAddr ha =>
        dsimp only at h
        split at h
        · cases h
        next s1 hu =>
          split at h
          · cases h
          · cases h
            rw [lock_updateAlloc_ok_chain hu]
            have hbase : sortedKeys (p.map VNode.key ++ suf.map VNode.key) := by
              have hs' := hs
              rw [hchain] at hs'
              simpa [List.map_append] using hs'
            have hins : sortedKeys (p.map VNode.key ++ key :: suf.map VNode.key) := by
              refine sortedKeys_insert_middle hbase hmin hmax ?_ ?_
              · intro a ha'
                rcases List.mem_map.mp ha' with ⟨n, hn, rfl⟩
                exact hp n hn
              · intro bk hbk
                cases suf with
                | nil => simp at hbk
                | cons n0 rest =>
                  simp only [List.map_cons, List.head?, Option.mem_def,
                    Option.some.injEq] at hbk
                  subst hbk
                  have hge : key ≤ n0.key := hsuf n0 (by simp)
                  have hne : n0.key ≠ key := by
                    simpa [currKey] using hdup
                  exact lt_of_le_of_ne hge (Ne.symm hne)
            simpa [List.map_append] using hins

theorem lock_remove_sortedKeys {s s' : State T} {key : Int} {id : Int} {b : Bool}
    (hs : sortedKeys (s.chain.map VNode.key))
    (h : remove s key id = .ok (s', b)) :
    sortedKeys (s'.chain.map VNode.key) := by
  unfold remove at h
  split at h
  · cases h
  next p suf hf =>
    obtain ⟨hchain, -, -⟩ := findAux_ok hf
    split at h
    · cases h
    cases suf with
    | nil =>
      dsimp only at h
      split at h
      · cases h
        exact hs
      · split at h
        · cases h
        next hflush =>
          exfalso
          simp [flushCheck] at hflush
    | cons c rest =>
      dsimp only at h
      split at h
      · cases h
        exact hs
      · split at h
        · cases h
        · cases h
          have hsub : List.Sublist ((p ++ rest).map VNode.key)
              ((p ++ c :: rest).map VNode.key) := by
            simp only [List.map_append, List.map_cons]
            exact (List.sublist_cons_self _ _).append_left _
          rw [hchain] at hs
          exact sortedKeys_sublist hsub hs

/-- Every reachable `LockDurableSet` state has a strictly ascending
head-to-tail traversal. -/
theorem lock_reachable_sortedKeys {s : State T} (h : Reachable s) :
    sortedKeys (s.chain.map VNode.key) := by
  induction h with
  | construct writeOpsVector memOps =>
    show sortedKeys (List.map VNode.key [])
    refine List.pairwise_cons.mpr ⟨?_, List.pairwise_singleton _ _⟩
    intro b hb
    have hb' : b = MAX_KEY := by simpa using hb
    subst hb'
    norm_num [MIN_KEY, MAX_KEY]
  | insert _ hmin hmax hstep ih => exact lock_insert_sortedKeys ih hmin hmax hstep
  | remove _ hmin hmax hstep ih => exact lock_remove_sortedKeys ih hstep

theorem lock_containsAux_max {chain : List (VNode T)}
    (h : ∀ n ∈ chain, n.key < MAX_KEY) :
    containsAux chain MAX_KEY = .ok true := by
  induction chain with
  | nil => simp [containsAux]
  | cons n rest ih =>
    have hn : n.key < MAX_KEY := h n (by simp)
    have ih' := ih fun m hm => h m (List.mem_cons_of_mem _ hm)
    simp [containsAux, hn, ih']

end LockDurableSet

namespace MRLockDurableSet

variable {T : Type}

theorem insert_eq_lock :
    @MRLockDurableSet.insert T = @LockDurableSet.insert T := by
  funext s key item id
  unfold MRLockDurableSet.insert LockDurableSet.insert
  unfold MRLockDurableSet.allocFromArea LockDurableSet.allocFromArea
  unfold MRLockDurableSet.updateAlloc LockDurableSet.updateAlloc
  rfl

theorem remove_eq_lock :
    @MRLockDurableSet.remove T = @LockDurableSet.remove T := by
  funext s key id
  unfold MRLockDurableSet.remove LockDurableSet.remove
  rfl

theorem containsAux_eq_lock (chain : List (VNode T)) (key : Int) :
    MRLockDurableSet.containsAux chain key = LockDurableSet.containsAux chain key := by
  induction chain with
  | nil => rfl
  | cons n rest ih =>
    unfold MRLockDurableSet.containsAux LockDurableSet.containsAux
    rw [ih]

/-- Every reachable `MRLockDurableSet` state has a strictly ascending
head-to-tail traversal. -/
theorem mrlock_reachable_sortedKeys {s : State T} (h : Reachable s) :
    sortedKeys (s.chain.map VNode.key) := by
  induction h with
  | construct writeOpsVector memOps =>
    show sortedKeys (List.map VNode.key [])
    refine List.pairwise_cons.mpr ⟨?_, List.pairwise_singleton _ _⟩
    intro b hb
    have hb' : b = MAX_KEY := by simpa using hb
    subst hb'
    norm_num [MIN_KEY, MAX_KEY]
  | insert _ hmin hmax hstep ih =>
    rw [insert_eq_lock] at hstep
    exact LockDurableSet.lock_insert_sortedKeys ih hmin hmax hstep
  | remove _ hmin hmax hstep ih =>
    rw [remove_eq_lock] at hstep
    exact LockDurableSet.lock_remove_sortedKeys ih hstep

theorem mrlock_containsAux_max {chain : List (VNode T)}
    (h : ∀ n ∈ chain, n.key < MAX_KEY) :
    containsAux chain MAX_KEY = .ok true := by
  exact (containsAux_eq_lock _ _).trans (LockDurableSet.lock_containsAux_max h)

end MRLockDurableSet

namespace LinkFreeDurableSet

variable {T : Type}

theorem FLUSH_INSERT_ok_key {ns ss : Nat} {n n' : Node T}
    (h : FLUSH_INSERT ns ss n = .ok n') : n'.key = n.key := by
  unfold FLUSH_INSERT at h
  split at h
  · split at h
    · cases h
    · cases h
      rfl
  · cases h
    rfl

theorem FLUSH_DELETE_ok_key {ns ss : Nat} {n n' : Node T}
    (h : FLUSH_DELETE ns ss n = .ok n') : n'.key = n.key := by
  unfold FLUSH_DELETE at h
  split at h
  · split at h
    · cases h
    · cases h
      rfl
  · cases h
    rfl

theorem lf_findAux_ok {ns ss : Nat} {chain : List (Node T)} {key : Int}
    {p s : List (Node T)} (h : findAux ns ss chain key = .ok (p, s)) :
    List.Sublist (p ++ s) chain ∧ (∀ n ∈ p, n.key < key) ∧
      ∀ n ∈ s.head?, key ≤ n.key := by
  induction chain generalizing p s with
  | nil =>
    unfold findAux at h
    split at h
    · obtain ⟨rfl, rfl⟩ : p = [] ∧ s = [] := by
        cases h
        exact ⟨rfl, rfl⟩
      simp
    · cases h
  | cons n rest ih =>
    unfold findAux at h
    split at h
    next hunmarked =>
      split at h
      next hle =>
        obtain ⟨rfl, rfl⟩ : p = [] ∧ s = n :: rest := by
          cases h
          exact ⟨rfl, rfl⟩
        refine ⟨by simp, by simp, ?_⟩
        intro m hm
        simp only [List.head?, Option.mem_def, Option.some.injEq] at hm
        subst hm
        exact hle
      next hgt =>
        split at h
        · cases h
        next p' s' hf =>
          obtain ⟨rfl, rfl⟩ : p = n :: p' ∧ s = s' := by
            cases h
            exact ⟨rfl, rfl⟩
          obtain ⟨hsub, hp, hs⟩ := ih hf
          refine ⟨List.Sublist.cons₂ _ hsub, ?_, hs⟩
          intro m hm
          rcases List.mem_cons.mp hm with rfl | hm'
          · exact lt_of_not_le hgt
          · exact hp m hm'
    · split at h
      · cases h
      · obtain ⟨hsub, hp, hs⟩ := ih h
        exact ⟨hsub.cons _, hp, hs⟩

theorem lf_updateAlloc_ok_chain {s s1 : State T} {id : Int}
    (h : updateAlloc s id = .ok s1) : s1.chain = s.chain := by
  unfold updateAlloc at h
  split at h
  · cases h
  · split at h
    · cases h
    · split at h
      · cases h
      · split at h
        · cases h
        · cases h
          rfl

theorem lf_insert_sortedKeys {s s' : State T} {key : Int} {item : T} {id : Int} {b : Bool}
    (hs : sortedKeys (s.chain.map Node.key))
    (hmin : MIN_KEY < key) (hmax : key < MAX_KEY)
    (h : insert s key item id = .ok (s', b)) :
    sortedKeys (s'.chain.map Node.key) := by
  unfold insert at h
  split at h
  · cases h
  next p suf hf =>
    obtain ⟨hsub, hp, hsuf⟩ := lf_findAux_ok hf
    have hbase : sortedKeys ((p ++ suf).map Node.key) :=
      sortedKeys_sublist (hsub.map _) hs
    split at h
    next hdup =>
      cases suf with
      | nil =>
        dsimp only at h
        split at h
        · cases h
        next hflush =>
          exfalso
          simp [flushCheck] at hflush
      | cons c rest =>
        dsimp only at h
        split at h
        · cases h
        next c2 hfl =>
          cases h
          have hkey : c2.key = c.key := by
            simpa using FLUSH_INSERT_ok_key hfl
          show sortedKeys ((p ++ c2 :: rest).map Node.key)
          have : (p ++ c2 :: rest).map Node.key = (p ++ c :: rest).map Node.key := by
            simp [List.map_append, hkey]
          rw [this]
          exact hbase
    next hdup =>
      split at h
      · cases h
      · cases h
        exact hbase
      next durAddr ha =>
        dsimp only at h
        split at h
        · cases h
        next s1 hu =>
          split at h
          · cases h
          · cases h
            rw [lf_updateAlloc_ok_chain hu]
            have hbase' : sortedKeys (p.map Node.key ++ suf.map Node.key) := by
              simpa [List.map_append] using hbase
            have hins : sortedKeys (p.map Node.key ++ key :: suf.map Node.key) := by
              refine sortedKeys_insert_middle hbase' hmin hmax ?_ ?_
              · intro a ha'
                rcases List.mem_map.mp ha' with ⟨n, hn, rfl⟩
                exact hp n hn
              · intro bk hbk
                cases suf with
                | nil => simp at hbk
                | cons n0 rest =>
                  simp only [List.map_cons, List.head?, Option.mem_def,
                    Option.some.injEq] at hbk
                  subst hbk
                  have hge : key ≤ n0.key := hsuf n0 (by simp)
                  have hne : n0.key ≠ key := by
                    simpa [lfCurrKey] using hdup
                  exact lt_of_le_of_ne hge (Ne.symm hne)
            simpa [List.map_append] using hins

theorem lf_remove_sortedKeys {s s' : State T} {key : Int} {b : Bool}
    (hs : sortedKeys (s.chain.map Node.key))
    (h : remove s key = .ok (s', b)) :
    sortedKeys (s'.chain.map Node.key) := by
  unfold remove at h
  split at h
  · cases h
  next p suf hf =>
    obtain ⟨hsub, -, -⟩ := lf_findAux_ok hf
    have hbase : sortedKeys ((p ++ suf).map Node.key) :=
      sortedKeys_sublist (hsub.map _) hs
    split at h
    · cases h
      exact hbase
    next hdup =>
      cases suf with
      | nil =>
        dsimp only at h
        split at h
        · cases h
        next hflush =>
          exfalso
          simp [flushCheck] at hflush
      | cons c rest =>
        dsimp only at h
        split at h
        · cases h
        · cases h
          have hsub2 : List.Sublist ((p ++ rest).map Node.key)
              ((p ++ c :: rest).map Node.key) := by
            simp only [List.map_append, List.map_cons]
            exact (List.sublist_cons_self _ _).append_left _
          exact sortedKeys_sublist hsub2 hbase

theorem containsAux_ok_keys {ns ss : Nat} {chain chain' : List (Node T)}
    {key : Int} {b : Bool}
    (h : containsAux ns ss chain key = .ok (chain', b)) :
    chain'.map Node.key = chain.map Node.key := by
  induction chain generalizing chain' b with
  | nil =>
    unfold containsAux at h
    split at h
    · cases h
    · split at h
      · cases h
        rfl
      · split at h
        · cases h
        · cases h
          rfl
  | cons n rest ih =>
    unfold containsAux at h
    split at h
    · split at h
      · cases h
      next rest' b' hrec =>
        cases h
        simpa using ih hrec
    · split at h
      · cases h
        rfl
      · split at h
        · split at h
          · cases h
          next n' hfd =>
            cases h
            simp [FLUSH_DELETE_ok_key hfd]
        · dsimp only at h
          split at h
          · cases h
          next n' hfi =>
            cases h
            have : n'.key = n.key := by
              simpa using FLUSH_INSERT_ok_key hfi
            simp [this]

theorem contains_sortedKeys {s s' : State T} {key : Int} {b : Bool}
    (hs : sortedKeys (s.chain.map Node.key))
    (h : contains s key = .ok (s', b)) :
    sortedKeys (s'.chain.map Node.key) := by
  unfold contains at h
  split at h
  · cases h
  next chain' b' hc =>
    cases h
    show sortedKeys (chain'.map Node.key)
    rw [containsAux_ok_keys hc]
    exact hs

/-- Every reachable `LinkFreeDurableSet` state has a strictly ascending
head-to-tail traversal. -/
theorem lf_reachable_sortedKeys {s : State T} (h : Reachable s) :
    sortedKeys (s.chain.map Node.key) := by
  induction h with
  | construct writeOpsVector memOps =>
    show sortedKeys (List.map Node.key [])
    refine List.pairwise_cons.mpr ⟨?_, List.pairwise_singleton _ _⟩
    intro b hb
    have hb' : b = MAX_KEY := by simpa using hb
    subst hb'
    norm_num [MIN_KEY, MAX_KEY]
  | insert _ hmin hmax hstep ih => exact lf_insert_sortedKeys ih hmin hmax hstep
  | remove _ hmin hmax hstep ih => exact lf_remove_sortedKeys ih hstep
  | contains _ hmin hmax hstep ih => exact contains_sortedKeys ih hstep

end LinkFreeDurableSet

namespace SequentialDurableSet

variable {T : Type}

theorem containsAux_found {p : List (VNode T)} {m : VNode T}
    {rest : List (VNode T)} {key : Int}
    (hp : ∀ n ∈ p, n.key < key) (hm : m.key = key) :
    containsAux (p ++ m :: rest) key = .ok true := by
  induction p with
  | nil => simp [containsAux, hm]
  | cons a p ih =>
    have ha : a.key < key := hp a (by simp)
    have ih' := ih fun n hn => hp n (List.mem_cons_of_mem _ hn)
    simp [containsAux, ha, ih']

theorem insert_ok_true_shape {s s' : State T} {key : Int} {item : T}
    (h : insert s key item = .ok (s', true)) :
    ∃ p suf durAddr,
      (∀ n ∈ p, n.key < key) ∧
      s'.chain = p ++
        { key := key, item := item, validBits := 0 ||| 1 ||| 2, marked := false,
          durableAddrPre := 0, durableAddrPost := durAddr } :: suf := by
  unfold insert at h
  split at h
  · cases h
  next p suf hf =>
    obtain ⟨-, hp, -⟩ := findAux_ok hf
    split at h
    · cases h
    next hdup =>
      split at h
      · cases h
      · cases h
      next durAddr ha =>
        dsimp only at h
        split at h
        · cases h
        next s1 hu =>
          split at h
          · cases h
          · cases h
            exact ⟨p, suf, durAddr, hp, seq_updateAlloc_ok_chain hu⟩

/-- After a successful `insert key item`, `contains key` answers `true`
and a repeated `insert key` returns `false` without touching the state. -/
theorem insert_then_contains_and_dup {s s' : State T} {key : Int}
    {item : T} (it' : T)
    (h : insert s key item = .ok (s', true)) :
    contains s' key = .ok true ∧ insert s' key it' = .ok (s', false) := by
  obtain ⟨p, suf, durAddr, hp, hchain⟩ := insert_ok_true_shape h
  constructor
  · unfold contains
    rw [hchain]
    exact containsAux_found hp rfl
  · unfold insert
    rw [hchain, findAux_append_stop hp (le_refl _)]
    simp [currKey]

/-- In every reachable state, `contains MAX_KEY` answers `true`: the walk
stops at the tail sentinel, whose key is `MAX_KEY`. -/
theorem seq_reachable_contains_max {s : State T} (h : Reachable s) :
    contains s MAX_KEY = .ok true := by
  have hso := seq_reachable_sortedKeys h
  have hlt : ∀ n ∈ s.chain, n.key < MAX_KEY := fun n hn =>
    sortedKeys_lt_max hso _ (List.mem_map_of_mem _ hn)
  exact seq_containsAux_max hlt

end SequentialDurableSet

namespace LockDurableSet

variable {T : Type}

/-- In every reachable state, `contains MAX_KEY` answers `true`. -/
theorem lock_reachable_contains_max {s : State T} (h : Reachable s) :
    contains s MAX_KEY = .ok true := by
  have hso := lock_reachable_sortedKeys h
  have hlt : ∀ n ∈ s.chain, n.key < MAX_KEY := fun n hn =>
    sortedKeys_lt_max hso _ (List.mem_map_of_mem _ hn)
  exact lock_containsAux_max hlt

end LockDurableSet

namespace MRLockDurableSet

variable {T : Type}

/-- In every reachable state, `contains MAX_KEY` answers `true`. -/
theorem mrlock_reachable_contains_max {s : State T} (h : Reachable s) :
    contains s MAX_KEY = .ok true := by
  have hso := mrlock_reachable_sortedKeys h
  have hlt : ∀ n ∈ s.chain, n.key < MAX_KEY := fun n hn =>
    sortedKeys_lt_max hso _ (List.mem_map_of_mem _ hn)
  exact mrlock_containsAux_max hlt

end MRLockDurableSet

namespace MemoryManager

variable {T : Type}

theorem scanInner_errors [Zero T] {size : Nat} (hsize : 0 < size) :
    ∀ (fuel : Nat) (i : Nat) (st : ScanState T), st.memPool.length - i ≤ fuel →
      ∃ e, scanInner size i st = .error e := by
  intro fuel
  induction fuel with
  | zero =>
    intro i st hle
    have hi : ¬ i < st.memPool.length := by omega
    rw [scanInner]
    simp [hsize, hi]
  | succ n ih =>
    intro i st hle
    rw [scanInner]
    by_cases hi : i < st.memPool.length
    · simp only [hsize, if_true, dif_pos hi]
      cases hv : vecAt (st.memPool.get ⟨i, hi⟩) 0 with
      | error e => exact ⟨e, rfl⟩
      | ok c =>
        dsimp only
        cases ha : (if c.isValid = true then
            (vecAt st.activeNodes i).bind fun a => vecSet st.activeNodes i (a + 1)
          else .ok st.activeNodes) with
        | error e => exact ⟨e, rfl⟩
        | ok active' =>
          cases hr : vecSet (st.memPool.get ⟨i, hi⟩) 0 MemCell.blank with
          | error e => exact ⟨e, rfl⟩
          | ok row' =>
            cases hf : (vecAt st.freeListIndex i).bind fun f =>
                vecSet st.freeListIndex i (f + 1) with
            | error e => exact ⟨e, rfl⟩
            | ok fli' =>
              apply ih
              simp only [List.length_set]
              omega
    · refine ⟨.outOfRange, ?_⟩
      simp [hsize, hi]

/-- With at least one writer section and a positive per-writer capacity,
`readResetMemory` as written never returns: its inner loop increments the
outer index, so the scan walks off the end of the arena and throws. -/
theorem readResetMemory_errors [Zero T] (m : State T)
    (h1 : 0 < m.numMemPoolSections) (h2 : 0 < m.memPoolSectionSize)
    (keys : List Int) (items : List T) (pres active : List Int) :
    ∃ e, m.readResetMemory keys items pres active = .error e := by
  unfold State.readResetMemory
  rw [scanOuter]
  simp only [h1, if_true]
  cases hset : vecSet m.freeListIndex 0 0 with
  | error e => exact ⟨e, rfl⟩
  | ok fli =>
    obtain ⟨e, he⟩ := scanInner_errors (T := T) h2
      (m.memPool.length) 0
      { memPool := m.memPool, freeListIndex := fli,
        keys, items, durableAddrPres := pres, activeNodes := active, count := 0 }
      (by simp)
    dsimp only
    rw [he]
    exact ⟨e, rfl⟩

end MemoryManager

namespace MRLockDurableSet

theorem resourceIDsAux_closed (n : Nat) :
    ∀ e : Nat, e < 31 →
      resourceIDsAux (2 ^ e) (e + 1) n
        = (List.range n).map (fun i => 2 ^ ((e + i) % 31)) := by
  induction n with
  | zero => intro e he; simp [resourceIDsAux]
  | succ n ih =>
    intro e he
    rw [resourceIDsAux, List.range_succ_eq_map]
    by_cases h30 : e = 30
    · subst h30
      have hstep : resourceIDStep (2 ^ 30) (30 + 1) = (1, 1) := by
        norm_num [resourceIDStep]
      rw [hstep]
      have ih0 := ih 0 (by norm_num)
      norm_num at ih0
      rw [show resourceIDsAux 1 1 n = resourceIDsAux (2 ^ 0) (0 + 1) n by norm_num,
        ih 0 (by norm_num)]
      refine congr_arg₂ List.cons (by norm_num) ?_
      rw [List.map_map]
      refine List.map_congr_left ?_
      intro i hi
      simp only [Function.comp_apply, Nat.succ_eq_add_one, Nat.zero_add]
      rw [show 30 + (i + 1) = 31 + i by omega, Nat.add_mod_left]
    · have he' : e + 1 < 31 := by omega
      have hpow : 2 ^ (e + 1) < 2 ^ 32 := Nat.pow_lt_pow_right (by norm_num) (by omega)
      have hshift : (2 ^ e) <<< 1 = 2 ^ (e + 1) := by
        rw [Nat.shiftLeft_eq, pow_succ]
        ring
      have hstep : resourceIDStep (2 ^ e) (e + 1) = (2 ^ (e + 1), e + 1 + 1) := by
        unfold resourceIDStep
        rw [hshift, Nat.mod_eq_of_lt hpow, if_neg (by omega)]
      rw [hstep, ih (e + 1) he']
      refine congr_arg₂ List.cons ?_ ?_
      · show 2 ^ e = 2 ^ ((e + 0) % 31)
        rw [Nat.add_zero, Nat.mod_eq_of_lt he]
      · rw [List.map_map]
        refine List.map_congr_left ?_
        intro i hi
        simp only [Function.comp_apply, Nat.succ_eq_add_one]
        rw [show e + 1 + i = e + (i + 1) by omega]

theorem preAllocResourceIDs_closed (n : Nat) :
    preAllocResourceIDs n = (List.range n).map (fun i => 2 ^ ((i + 2) % 31)) := by
  unfold preAllocResourceIDs
  rw [show resourceIDsAux 4 3 n = resourceIDsAux (2 ^ 2) (2 + 1) n by norm_num,
    resourceIDsAux_closed n 2 (by norm_num)]
  refine List.map_congr_left ?_
  intro i hi
  rw [Nat.add_comm 2 i]

end MRLockDurableSet

namespace MemoryManager

variable {T : Type}

theorem construct_retrieveAddress [Zero T] (numIDs numOps : Nat) (id : Nat)
    (h : id < numIDs) :
    (State.construct (T := T) numIDs numOps).retrieveAddress id
      = .ok ((numOps : Int) - 1) := by
  unfold State.construct State.retrieveAddress vecAt
  have hb : (0 : Int) ≤ (id : Int) ∧ ((id : Int)).toNat
      < (List.replicate numIDs ((numOps : Int) - 1)).length := by
    simp [Int.toNat_natCast, h]
  rw [dif_pos hb]
  simp [List.getElem_replicate]

theorem updateAddress_decrements {m : State T} {id : Int} {c : Int}
    (h : m.retrieveAddress id = .ok c) :
    ∃ m', m.updateAddress id = .ok m'
      ∧ m'.retrieveAddress id = .ok (c - 1) := by
  unfold State.retrieveAddress vecAt at h
  by_cases hb : (0 : Int) ≤ id ∧ id.toNat < m.freeListIndex.length
  · rw [dif_pos hb] at h
    have hc : m.freeListIndex.get ⟨id.toNat, hb.2⟩ = c := by
      cases h
      rfl
    refine ⟨{ m with freeListIndex := m.freeListIndex.set id.toNat (c - 1) }, ?_, ?_⟩
    · unfold State.updateAddress
      rw [show vecAt m.freeListIndex id = .ok c by
        unfold vecAt
        rw [dif_pos hb, hc]]
      dsimp only
      rw [show vecSet m.freeListIndex id (c - 1)
          = .ok (m.freeListIndex.set id.toNat (c - 1)) by
        unfold vecSet
        rw [if_pos hb]]
    · unfold State.retrieveAddress vecAt
      have hb' : (0 : Int) ≤ id ∧ id.toNat
          < (m.freeListIndex.set id.toNat (c - 1)).length := by
        simpa [List.length_set] using hb
      rw [dif_pos hb']
      simp [List.getElem_set_self]
  · rw [dif_neg hb] at h
    cases h

end MemoryManager

namespace MRLockDurableSet

theorem preAllocResourceIDs_getD (n i : Nat) (h : i < n) :
    (preAllocResourceIDs n).getD i 0 = 2 ^ ((i + 2) % 31) := by
  rw [preAllocResourceIDs_closed]
  rw [List.getD_eq_getElem?_getD, List.getElem?_map, List.getElem?_range h]
  rfl

end MRLockDurableSet

/-! ## Claims -/

/-- Claim C1.  The claim states that `MemCell::isValid` classifies a cell
live iff `(validBits & 3) == 3` and the tombstone (low) bit of `next` is
clear, so that a cell with `validBits = 3` and `next = 2` (low bit clear,
other bits arbitrary) is live.  The source instead tests
`(bool)((this->next) | 0)`, which rejects every cell whose `next` is
nonzero: on the cell `{validBits := 3, next := 2}` the source `isValid`
answers `false` while the specified liveness predicate answers `true`. -/
theorem claim_C1_isValid_tombstone_bug :
    MemoryManager.MemCell.isValid
        { key := 5, item := (0 : Int), validBits := 3,
          insertValidFlag := true, deleteValidFlag := false, next := 2 } = false
  ∧ MemoryManager.MemCell.isValidSpecLive
        { key := 5, item := (0 : Int), validBits := 3,
          insertValidFlag := true, deleteValidFlag := false, next := 2 } = true := by
  decide

/-- One-writer, one-cell bit-mask store holding a single live cell
(key `7`, item `2`, `validBits = 3`, `next = 0`) with its cursor spent. -/
def liveCellStore : MemoryManager.State Int :=
  { numMemPoolSections := 1
    memPoolSectionSize := 1
    memPool := [[{ key := 7, item := 2, validBits := 3,
                   insertValidFlag := true, deleteValidFlag := false, next := 0 }]]
    freeListIndex := [-1] }

/-- Claim C2.  The claim states that the set rebuilt by `recover` is a
function of the live durable cells alone.  As written, `recover` cannot
rebuild anything: it invokes the scan as `this->mem.recoverMemory(...)`
(member access through a pointer, and no method of that name exists), and
the scan it aliases, `readResetMemory`, faults before returning even on a
store that holds exactly one live cell, as evaluated here. -/
theorem claim_C2_recover_scan_faults :
    ∃ e, liveCellStore.readResetMemory [] [] [] [0] = Except.error e :=
  MemoryManager.readResetMemory_errors liveCellStore (by decide) (by decide) [] [] [] [0]

/-- Claim C3.  The claim states that `readResetMemory` terminates after a
linear scan visiting every cell of every writer section exactly once and
returns the number of live cells.  Because the inner loop increments the
outer index (`for (int j = 0; j < memPoolSectionSize; i++)`), for every
arena with at least one writer section and positive per-writer capacity
the scan instead walks off the end of the section vector and throws
`std::out_of_range` — it never returns a count. -/
theorem claim_C3_readResetMemory_faults (m : MemoryManager.State Int)
    (h1 : 0 < m.numMemPoolSections) (h2 : 0 < m.memPoolSectionSize)
    (keys : List Int) (items : List Int) (pres active : List Int) :
    ∃ e, m.readResetMemory keys items pres active = Except.error e :=
  MemoryManager.readResetMemory_errors m h1 h2 keys items pres active

/-- One-writer, two-cell blank bit-mask store. -/
def blankStore2 : MemoryManager.State Int :=
  { numMemPoolSections := 1
    memPoolSectionSize := 2
    memPool := [[MemoryManager.MemCell.blank, MemoryManager.MemCell.blank]]
    freeListIndex := [1] }

/-- Witness for C3 on the concrete one-writer two-cell store. -/
theorem claim_C3_witness :
    0 < blankStore2.numMemPoolSections ∧ 0 < blankStore2.memPoolSectionSize ∧
      ∃ e, blankStore2.readResetMemory [] [] [] [0] = Except.error e :=
  ⟨by decide, by decide,
    claim_C3_readResetMemory_faults blankStore2 (by decide) (by decide) [] [] [] [0]⟩

/-- One-writer store whose cursor sits at `0` — the state the claim C4
posits after `readResetMemory` has reset the cursors. -/
def cursorAtZero : MemoryManager.State Int :=
  { numMemPoolSections := 1
    memPoolSectionSize := 2
    memPool := [[MemoryManager.MemCell.blank, MemoryManager.MemCell.blank]]
    freeListIndex := [0] }

/-- Claim C4, counterexample.  The claim states that after recover's
reset, successful inserts allocate durable indices `0, 1, 2, …` upward.
From a cursor at `0`, consuming one address (`updateAddress`) makes the
next `retrieveAddress` return `-1` — the out-of-budget sentinel — never
`1`: `updateAddress` only decrements, so allocation cannot ascend. -/
theorem claim_C4_counterexample :
    cursorAtZero.retrieveAddress 0 = .ok 0
  ∧ cursorAtZero.updateAddress 0
      = .ok { cursorAtZero with freeListIndex := [-1] }
  ∧ MemoryManager.State.retrieveAddress
      { cursorAtZero with freeListIndex := [-1] } 0 = .ok (-1)
  ∧ ((-1 : Int) = 1 → False) := by
  refine ⟨by decide, by decide, by decide, by decide⟩

/-- Claim C4, amended.  Pre-recover allocation runs from the highest
index downward exactly as claimed: a freshly constructed store answers
`retrieveAddress = C(w) - 1`, and every `updateAddress` moves the cursor
down by one.  Allocation never ascends after any cursor reset: from a
cursor value `c`, the next value is always `c - 1`. -/
theorem claim_C4_amended (T : Type) [Zero T] :
    (∀ (numIDs numOps : Nat) (id : Nat), id < numIDs →
      (MemoryManager.State.construct (T := T) numIDs numOps).retrieveAddress id
        = .ok ((numOps : Int) - 1))
  ∧ (∀ (m : MemoryManager.State T) (id : Int) (c : Int),
      m.retrieveAddress id = .ok c →
      ∃ m', m.updateAddress id = .ok m' ∧ m'.retrieveAddress id = .ok (c - 1)) :=
  ⟨fun numIDs numOps id h => MemoryManager.construct_retrieveAddress numIDs numOps id h,
   fun _ _ _ h => MemoryManager.updateAddress_decrements h⟩

/-- Witness for the amended C4 on a two-writer three-cell store. -/
theorem claim_C4_amended_witness :
    (MemoryManager.State.construct (T := Int) 2 3).retrieveAddress 1
        = .ok ((3 : Int) - 1)
  ∧ ∃ m', cursorAtZero.updateAddress 0 = .ok m'
      ∧ m'.retrieveAddress 0 = .ok ((0 : Int) - 1) :=
  ⟨(claim_C4_amended Int).1 2 3 1 (by decide),
   (claim_C4_amended Int).2 cursorAtZero 0 0 (by decide)⟩

/-- A `SequentialDurableSet` constructed with a write budget of one
(store: one writer, one cell). -/
def seqBudgetOne : SequentialDurableSet.State Int :=
  SequentialDurableSet.construct 1 1 1

/-- Claim C5.  The claim states that once a writer's budget is exhausted
a further insert returns `false` and no exception escapes any public
operation.  After the single budgeted insert succeeds, the next insert
evaluates `preAllocatedNodes.at(-1)` — the pool fetch in `allocFromArea`
precedes the durable-address `-1` test — and the embedded
`std::out_of_range` escapes instead of a `false` return. -/
theorem claim_C5_insert_after_exhaustion_throws :
    SequentialDurableSet.insert seqBudgetOne 1 0
      = .ok ({ chain := [{ key := 1, item := 0, validBits := 3, marked := false,
                           durableAddrPre := 0, durableAddrPost := 0 }],
               allocIndices := -1, maxIndices := 1, poolSize := 1,
               numMemSections := 1, memSectionSize := 1,
               freeListIndex := [-1] }, true)
  ∧ SequentialDurableSet.insert
      { chain := [{ key := 1, item := 0, validBits := 3, marked := false,
                    durableAddrPre := 0, durableAddrPost := 0 }],
        allocIndices := -1, maxIndices := 1, poolSize := 1,
        numMemSections := 1, memSectionSize := 1,
        freeListIndex := [-1] } 2 0
      = .error .outOfRange := by
  refine ⟨by decide, by decide⟩

/-- Claim C6.  In every state reachable from a freshly constructed set by
completed operations on non-sentinel keys, the head-to-tail traversal
along non-tombstoned links yields strictly ascending keys
(`MIN_KEY`, the interior keys, `MAX_KEY`, pairwise `<`); `insert`,
`remove` and `contains` preserve this, for the Sequential, Lock, MRLock
and Link-Free variants (quiescent semantics). -/
theorem claim_C6_sortedness :
    (∀ (T : Type) (s : SequentialDurableSet.State T),
        SequentialDurableSet.Reachable s → sortedKeys (s.chain.map VNode.key))
  ∧ (∀ (T : Type) (s : LockDurableSet.State T),
        LockDurableSet.Reachable s → sortedKeys (s.chain.map VNode.key))
  ∧ (∀ (T : Type) (s : MRLockDurableSet.State T),
        MRLockDurableSet.Reachable s → sortedKeys (s.chain.map VNode.key))
  ∧ (∀ (T : Type) (s : LinkFreeDurableSet.State T),
        LinkFreeDurableSet.Reachable s →
          sortedKeys (s.chain.map LinkFreeDurableSet.Node.key)) :=
  ⟨fun _ _ h => SequentialDurableSet.seq_reachable_sortedKeys h,
   fun _ _ h => LockDurableSet.lock_reachable_sortedKeys h,
   fun _ _ h => MRLockDurableSet.mrlock_reachable_sortedKeys h,
   fun _ _ h => LinkFreeDurableSet.lf_reachable_sortedKeys h⟩

/-- Sequential set of budget two after `insert 3`. -/
def c6StateA : SequentialDurableSet.State Int :=
  { chain := [{ key := 3, item := 0, validBits := 3, marked := false,
                durableAddrPre := 0, durableAddrPost := 1 }]
    allocIndices := 0, maxIndices := 2, poolSize := 2
    numMemSections := 1, memSectionSize := 2, freeListIndex := [0] }

/-- Sequential set of budget two after `insert 3` then `insert 1`. -/
def c6StateB : SequentialDurableSet.State Int :=
  { chain := [{ key := 1, item := 0, validBits := 3, marked := false,
                durableAddrPre := 0, durableAddrPost := 0 },
              { key := 3, item := 0, validBits := 3, marked := false,
                durableAddrPre := 0, durableAddrPost := 1 }]
    allocIndices := -1, maxIndices := 2, poolSize := 2
    numMemSections := 1, memSectionSize := 2, freeListIndex := [-1] }

/-- Witness for C6: after inserting `3` then `1` into a fresh sequential
set, the traversal keys are strictly ascending. -/
theorem claim_C6_witness : sortedKeys (c6StateB.chain.map VNode.key) :=
  claim_C6_sortedness.1 Int c6StateB
    (SequentialDurableSet.Reachable.insert
      (SequentialDurableSet.Reachable.insert
        (SequentialDurableSet.Reachable.construct 1 2 2)
        (by decide) (by decide)
        (by decide : SequentialDurableSet.insert
          (SequentialDurableSet.construct 1 2 2) 3 0 = Except.ok (c6StateA, true)))
      (by decide) (by decide)
      (by decide : SequentialDurableSet.insert c6StateA 1 0
        = Except.ok (c6StateB, true)))

/-- Claim C7.  After a successful `insert key item` on a sequential set,
`contains key` answers `true`, and a second `insert key item'` answers
`false` and returns the state unchanged (membership untouched). -/
theorem claim_C7_insert_contains_dup (T : Type)
    {s s' : SequentialDurableSet.State T} {key : Int} {item : T} (it' : T)
    (h : SequentialDurableSet.insert s key item = .ok (s', true)) :
    SequentialDurableSet.contains s' key = .ok true
  ∧ SequentialDurableSet.insert s' key it' = .ok (s', false) :=
  SequentialDurableSet.insert_then_contains_and_dup it' h

/-- Sequential set of budget one after `insert 5 9`. -/
def c7State : SequentialDurableSet.State Int :=
  { chain := [{ key := 5, item := 9, validBits := 3, marked := false,
                durableAddrPre := 0, durableAddrPost := 0 }]
    allocIndices := -1, maxIndices := 1, poolSize := 1
    numMemSections := 1, memSectionSize := 1, freeListIndex := [-1] }

/-- Witness for C7 after a concrete successful `insert 5 9`. -/
theorem claim_C7_witness :
    SequentialDurableSet.contains c7State 5 = .ok true
  ∧ SequentialDurableSet.insert c7State 5 (7 : Int) = .ok (c7State, false) :=
  claim_C7_insert_contains_dup Int 7
    (by decide : SequentialDurableSet.insert
      (SequentialDurableSet.construct 1 1 1) 5 9 = Except.ok (c7State, true))

/-- Claim C8.  The claim states that the SOFT list ends with two sentinel
tails keyed `MAX_KEY` and `MAX_KEY + 1`, both at construction and after
every recover.  The constructor does assign `MAX_KEY` and `MAX_KEY + 1`,
but `recover` re-creates `tailTwo` with key `MAX_KEY` (line 379), not
`MAX_KEY + 1`. -/
theorem claim_C8_soft_recover_tail_keys :
    SOFTDurableSet.constructSentinels.tailOneKey = MAX_KEY
  ∧ SOFTDurableSet.constructSentinels.tailTwoKey = MAX_KEY + 1
  ∧ SOFTDurableSet.recoverSentinels.tailOneKey = MAX_KEY
  ∧ SOFTDurableSet.recoverSentinels.tailTwoKey = MAX_KEY
  ∧ SOFTDurableSet.recoverSentinels.tailTwoKey ≠ MAX_KEY + 1 := by
  refine ⟨by decide, by decide, by decide, by decide, by decide⟩

/-- Claim C9, counterexample.  The claim states that pre-allocated nodes
receive one-hot IDs never equal to the dedicated IDs `1` (head) and `2`
(tail).  With `30` pre-allocated nodes, the node allocated 30th (index
`29`) receives exactly the head's dedicated ID `1`: after handing out
bits `2 … 30` the cycle resets `resourceID` to `1`. -/
theorem claim_C9_counterexample :
    (MRLockDurableSet.preAllocResourceIDs 30).getD 29 0
      = MRLockDurableSet.headResourceID := by
  decide

/-- Claim C9, amended.  Head and tail do receive the dedicated IDs `1`
and `2`, and the `i`-th pre-allocated node (in allocation order) receives
the one-hot ID `2 ^ ((i + 2) % 31)`: the cycle walks bit positions
`2 … 30`, then wraps to positions `0` and `1` — colliding with the
dedicated head and tail IDs every 31 nodes — and never uses bit `31`. -/
theorem claim_C9_resource_id_cycle (n i : Nat) (h : i < n) :
    (MRLockDurableSet.preAllocResourceIDs n).getD i 0 = 2 ^ ((i + 2) % 31)
  ∧ MRLockDurableSet.headResourceID = 1
  ∧ MRLockDurableSet.tailResourceID = 2 :=
  ⟨MRLockDurableSet.preAllocResourceIDs_getD n i h, rfl, rfl⟩

/-- Witness for the amended C9 at `n = 31`, `i = 29`. -/
theorem claim_C9_witness :
    29 < 31
  ∧ ((MRLockDurableSet.preAllocResourceIDs 31).getD 29 0 = 2 ^ ((29 + 2) % 31)
      ∧ MRLockDurableSet.headResourceID = 1
      ∧ MRLockDurableSet.tailResourceID = 2) :=
  ⟨by decide, claim_C9_resource_id_cycle 31 29 (by decide)⟩

/-- Claim C10.  In every state of the Sequential, Lock and MRLock sets
reachable by completed operations on non-sentinel keys — including the
empty set — `contains MAX_KEY` answers `true`: the walk stops at the tail
sentinel, whose key is `MAX_KEY` and whose `next` is null, hence never
tombstoned. -/
theorem claim_C10_contains_max_true :
    (∀ (T : Type) (s : SequentialDurableSet.State T),
        SequentialDurableSet.Reachable s →
          SequentialDurableSet.contains s MAX_KEY = .ok true)
  ∧ (∀ (T : Type) (s : LockDurableSet.State T),
        LockDurableSet.Reachable s →
          LockDurableSet.contains s MAX_KEY = .ok true)
  ∧ (∀ (T : Type) (s : MRLockDurableSet.State T),
        MRLockDurableSet.Reachable s →
          MRLockDurableSet.contains s MAX_KEY = .ok true) :=
  ⟨fun _ _ h => SequentialDurableSet.seq_reachable_contains_max h,
   fun _ _ h => LockDurableSet.lock_reachable_contains_max h,
   fun _ _ h => MRLockDurableSet.mrlock_reachable_contains_max h⟩

/-- Witness for C10 on freshly constructed (empty) sets, where `MAX_KEY`
was never inserted. -/
theorem claim_C10_witness :
    SequentialDurableSet.contains
      (SequentialDurableSet.construct (T := Int) 1 1 1) MAX_KEY = .ok true
  ∧ LockDurableSet.contains
      (LockDurableSet.construct (T := Int) [1] 1) MAX_KEY = .ok true
  ∧ MRLockDurableSet.contains
      (LockDurableSet.construct (T := Int) [1] 1) MAX_KEY = .ok true :=
  ⟨claim_C10_contains_max_true.1 Int _ (SequentialDurableSet.Reachable.construct 1 1 1),
   claim_C10_contains_max_true.2.1 Int _ (LockDurableSet.Reachable.construct [1] 1),
   claim_C10_contains_max_true.2.2 Int _ (MRLockDurableSet.Reachable.construct [1] 1)⟩
